import Mathlib

/-!
# Codelabs catalog: index builder and query engine

A shallow embedding of `src/build-index.js` (the Indexer) and of the class
`CodelabsCatalog` of `src/app.js` (the Query Engine), followed by theorems
about filtering, sorting, pagination, normalization and facet enumeration.

Conventions of the embedding:

* JavaScript strings are Lean `String`s; arrays are `List`s.
* A JavaScript `Set` of strings is a duplicate-free `List String` in insertion
  order (`JsSet`).
* JavaScript numbers that can be `NaN` are `Option Int`, `none` being `NaN`.
* The host functions `String.prototype.toLowerCase`,
  `String.prototype.localeCompare` and `Date.parse` are not part of the
  repository; the definitions take them as the fields of `Builtins`.
* `Array.prototype.sort` is a stable sort; it is embedded as a stable
  insertion sort.
-/

namespace Codelabs

/-! ## Host functions -/

/-- The host functions the code calls and the repository does not define. -/
structure Builtins where
  /-- `String.prototype.toLowerCase`. -/
  toLowerCase : String → String
  /-- `String.prototype.localeCompare`: negative, zero or positive. -/
  localeCompare : String → String → Int
  /-- `Date.parse` on a non-empty string; `none` is `NaN` (Invalid Date). -/
  dateParse : String → Option Int

/-- `s` starts with `q`, on lists of characters. -/
def startsWith : List Char → List Char → Bool
  | _, [] => true
  | [], _ :: _ => false
  | c :: cs, d :: ds => c == d && startsWith cs ds

/-- `String.prototype.includes` on lists of characters: `q` occurs in `s` at
some position. -/
def includesChars : List Char → List Char → Bool
  | [], q => startsWith [] q
  | c :: cs, q => startsWith (c :: cs) q || includesChars cs q

/-- `String.prototype.includes`. -/
def includes (s q : String) : Bool := includesChars s.data q.data

/-- `Array.prototype.join(' ')` on an array of strings. -/
def joinSpace (parts : List String) : String := " ".intercalate parts

/-! ## Data model of the query engine -/

/-- A catalog entry as the query engine holds it after
`normalizeCodelabsData`: the three facet fields are arrays. `duration` and
`updated` may be missing (`none`). -/
structure Codelab where
  id : String
  title : String
  summary : String
  categories : List String
  tags : List String
  duration : Option Nat
  updated : Option String
  authors : List String
  status : String
  url : String
  source : String
deriving DecidableEq, Repr

/-- A JavaScript `Set` of strings: its elements in insertion order. -/
abbrev JsSet := List String

/-- `Set.prototype.has`. -/
def JsSet.has (s : JsSet) (v : String) : Bool := s.contains v

/-- `Set.prototype.add`: a value already present is not added again. -/
def JsSet.add (s : JsSet) (v : String) : JsSet := if s.contains v then s else s ++ [v]

/-- `Set.prototype.size`. -/
def JsSet.size (s : JsSet) : Nat := s.length

/-- The field `selectedFilters` of `CodelabsCatalog`. -/
structure SelectedFilters where
  categories : JsSet
  tags : JsSet
  authors : JsSet
deriving DecidableEq, Repr

/-- The fields of a `CodelabsCatalog` object. `itemsPerPage` is set to 12 in
the constructor and never assigned again; it is the constant `itemsPerPage`. -/
structure AppState where
  codelabs : List Codelab
  filteredCodelabs : List Codelab
  currentSort : String
  selectedFilters : SelectedFilters
  searchQuery : String
  currentPage : Nat
deriving DecidableEq, Repr

/-- The constant `this.itemsPerPage`. -/
def itemsPerPage : Nat := 12

/-! ## Filtering (`filterAndRender`, lines 220-260) -/

/-- The text the search filter looks into:
`[title, summary, ...categories, ...tags, ...authors].join(' ').toLowerCase()`. -/
def searchableText (B : Builtins) (lab : Codelab) : String :=
  B.toLowerCase (joinSpace
    ([lab.title, lab.summary] ++ lab.categories ++ lab.tags ++ lab.authors))

/-- The callback `filterAndRender` passes to `this.codelabs.filter`: each
guard returns `false` early, the end of the body returns `true`. -/
def filterCallback (B : Builtins) (s : AppState) (lab : Codelab) : Bool :=
  if s.searchQuery ≠ "" ∧ !(includes (searchableText B lab) s.searchQuery) then false
  else if s.selectedFilters.categories.size > 0 ∧
      !(lab.categories.any (fun cat => s.selectedFilters.categories.has cat)) then false
  else if s.selectedFilters.tags.size > 0 ∧
      !(lab.tags.any (fun tag => s.selectedFilters.tags.has tag)) then false
  else if s.selectedFilters.authors.size > 0 ∧
      !(lab.authors.any (fun author => s.selectedFilters.authors.has author)) then false
  else true

/-- The first statement of `filterAndRender`: the filtered array, before
`sortCodelabs` reorders it. -/
def filterStep (B : Builtins) (s : AppState) : AppState :=
  { s with filteredCodelabs := s.codelabs.filter (filterCallback B s) }

/-- The matching rule as the specification words it: within a facet group the
selected values combine by OR, the groups and the search combine by AND, and
the search is a substring test on the lowercased space-joined text. -/
def matchesSpec (B : Builtins) (query : String) (sCat sTag sAuth : List String)
    (e : Codelab) : Prop :=
  (sCat = [] ∨ ∃ c ∈ e.categories, c ∈ sCat) ∧
  (sTag = [] ∨ ∃ t ∈ e.tags, t ∈ sTag) ∧
  (sAuth = [] ∨ ∃ a ∈ e.authors, a ∈ sAuth) ∧
  (query = "" ∨ ∃ pre post : List Char,
    (B.toLowerCase (" ".intercalate
      ([e.title, e.summary] ++ e.categories ++ e.tags ++ e.authors))).data
      = pre ++ query.data ++ post)

/-! ## Sorting (`sortCodelabs`, lines 267-286) -/

/-- `SortCompare` of ECMA-262 with a comparator: the number the comparator
returned, a `NaN` result read as `+0`. -/
def sortCompare (v : Option Int) : Int := v.getD 0

/-- `Array.prototype.sort(comparefn)`: a stable sort; `a` stays before `b`
unless the comparator says `a` comes after `b`. -/
def arraySort {α : Type} (comparefn : α → α → Option Int) (xs : List α) : List α :=
  xs.insertionSort (fun a b => sortCompare (comparefn a b) ≤ 0)

/-- The number `new Date(x.updated || 0)` converts to: a missing or empty
`updated` gives `new Date(0)`, any other string is parsed and may be invalid. -/
def timeValue (B : Builtins) (updated : Option String) : Option Int :=
  match updated with
  | none => some 0
  | some u => if u = "" then some 0 else B.dateParse u

/-- Subtraction of JavaScript numbers: `NaN` if either operand is `NaN`. -/
def numSub (x y : Option Int) : Option Int :=
  match x, y with
  | some a, some b => some (a - b)
  | _, _ => none

/-- The number `x.duration || 0`. -/
def durationOrZero (duration : Option Nat) : Int := ((duration.getD 0 : Nat) : Int)

/-- The comparator `sortCodelabs` passes to `sort`: a `switch` on
`this.currentSort` whose `default` returns 0. -/
def sortComparator (B : Builtins) (currentSort : String) (a b : Codelab) : Option Int :=
  if currentSort = "title-asc" then some (B.localeCompare a.title b.title)
  else if currentSort = "title-desc" then some (B.localeCompare b.title a.title)
  else if currentSort = "updated-desc" then
    numSub (timeValue B b.updated) (timeValue B a.updated)
  else if currentSort = "updated-asc" then
    numSub (timeValue B a.updated) (timeValue B b.updated)
  else if currentSort = "duration-asc" then
    some (durationOrZero a.duration - durationOrZero b.duration)
  else if currentSort = "duration-desc" then
    some (durationOrZero b.duration - durationOrZero a.duration)
  else some 0

/-- `sortCodelabs`: sorts `this.filteredCodelabs` in place. -/
def sortCodelabs (B : Builtins) (s : AppState) : AppState :=
  { s with filteredCodelabs := arraySort (sortComparator B s.currentSort) s.filteredCodelabs }

/-! ## Rendering and pagination (`renderCodelabs`, `renderPagination`) -/

/-- An element of the array `pages` of `renderPagination`: a page number or
the string `'...'`. -/
inductive PageToken where
  | page (n : Nat)
  | ellipsis
deriving DecidableEq, Repr

/-- What `renderPagination` puts on the page when it shows the pagination
bar. -/
structure Pagination where
  prevDisabled : Bool
  nextDisabled : Bool
  pages : List PageToken
deriving DecidableEq, Repr

/-- `renderPagination(totalPages)`. With `totalPages <= 1` it hides the bar and
returns before any token is built (`none`). -/
def renderPagination (s : AppState) (totalPages : Nat) : Option Pagination :=
  if totalPages ≤ 1 then none
  else
    let maxVisible := 5
    let pages : List PageToken :=
      if totalPages ≤ maxVisible then
        (List.range' 1 totalPages).map PageToken.page
      else if s.currentPage ≤ 3 then
        [.page 1, .page 2, .page 3, .page 4, .ellipsis, .page totalPages]
      else if s.currentPage ≥ totalPages - 2 then
        [.page 1, .ellipsis, .page (totalPages - 3), .page (totalPages - 2),
          .page (totalPages - 1), .page totalPages]
      else
        [.page 1, .ellipsis, .page (s.currentPage - 1), .page s.currentPage,
          .page (s.currentPage + 1), .ellipsis, .page totalPages]
    some { prevDisabled := s.currentPage == 1
           nextDisabled := s.currentPage == totalPages
           pages := pages }

/-- `Math.ceil(n / d)` for non-negative integers `n` and positive `d`. -/
def ceilDiv (n d : Nat) : Nat := (n + (d - 1)) / d

/-- `Array.prototype.slice(start, end)`: a negative index counts from the end,
and both indices are clipped to the bounds of the array. -/
def slice {α : Type} (xs : List α) (start stop : Int) : List α :=
  let len : Int := xs.length
  let k : Int := if start < 0 then max (len + start) 0 else min start len
  let fin : Int := if stop < 0 then max (len + stop) 0 else min stop len
  (xs.drop k.toNat).take (fin - k).toNat

/-- The local `codelabsToShow` of `renderCodelabs`. -/
def codelabsToShow (s : AppState) : List Codelab :=
  if s.filteredCodelabs.length > 0 then s.filteredCodelabs else s.codelabs

/-- What `renderCodelabs` puts on the page. -/
inductive View where
  /-- The branch `codelabsToShow.length === 0`: the text `No codelabs`. -/
  | noCodelabs
  /-- The count shown in `results-count`, the cards of the current page, the
  page count, and the pagination bar if shown. -/
  | cards (total : Nat) (pageCodelabs : List Codelab) (totalPages : Nat)
      (pagination : Option Pagination)
deriving DecidableEq, Repr

/-- `renderCodelabs`. -/
def renderCodelabs (s : AppState) : View :=
  let toShow := codelabsToShow s
  if toShow.length = 0 then View.noCodelabs
  else
    let totalPages := ceilDiv toShow.length itemsPerPage
    let startIdx : Int := ((s.currentPage : Int) - 1) * (itemsPerPage : Int)
    let endIdx : Int := startIdx + (itemsPerPage : Int)
    let pageCodelabs := slice toShow startIdx endIdx
    let total := toShow.length
    View.cards total pageCodelabs totalPages (renderPagination s totalPages)

/-- The cards `renderCodelabs` shows (none in the `No codelabs` branch). -/
def View.visible : View → List Codelab
  | .noCodelabs => []
  | .cards _ pageCodelabs _ _ => pageCodelabs

/-- `filterAndRender`: filter, sort, then render (the active-filter chips it
also redraws do not change the state). -/
def filterAndRender (B : Builtins) (s : AppState) : AppState × View :=
  let s1 := sortCodelabs B (filterStep B s)
  (s1, renderCodelabs s1)

/-! ## Normalization on load (`normalizeCodelabsData`, lines 140-149) -/

/-- The value of a facet field in JSON: one string or an array of strings. -/
inductive FacetField where
  | scalar (value : String)
  | array (items : List String)
deriving DecidableEq, Repr

/-- An entry of the loaded `codelabs.json`, before normalization: a facet
field may be an array, a single string, or missing (`none`). -/
structure RawCodelab where
  id : String
  title : String
  summary : String
  categories : Option FacetField
  tags : Option FacetField
  duration : Option Nat
  updated : Option String
  authors : Option FacetField
  status : String
  url : String
  source : String
deriving DecidableEq, Repr

/-- The callback of `normalizeCodelabsData`: the entry is spread, then
`categories`, `tags` and `authors` are overwritten. -/
def normalizeEntry (lab : RawCodelab) : Codelab :=
  { id := lab.id
    title := lab.title
    summary := lab.summary
    categories :=
      match lab.categories with
      | some (.array items) => items
      | some (.scalar value) => if value ≠ "" then [value] else []
      | none => []
    tags :=
      match lab.tags with
      | some (.array items) => items
      | _ => []
    duration := lab.duration
    updated := lab.updated
    authors :=
      match lab.authors with
      | some (.array items) => items
      | some (.scalar value) => if value ≠ "" then [value] else []
      | none => []
    status := lab.status
    url := lab.url
    source := lab.source }

/-- `normalizeCodelabsData`. -/
def normalizeCodelabsData (codelabs : List RawCodelab) : List Codelab :=
  codelabs.map normalizeEntry

/-! ## Facet options (`populateFilterOptions`, lines 152-166) -/

/-- UTF-16 code units of a character. -/
def utf16 (c : Char) : List Nat :=
  let n := c.toNat
  if n < 0x10000 then [n]
  else [0xD800 + (n - 0x10000) / 0x400, 0xDC00 + (n - 0x10000) % 0x400]

/-- UTF-16 code units of a string. -/
def codeUnits (s : String) : List Nat := s.data.flatMap utf16

/-- Lexicographic comparison of two sequences of numbers: -1, 0 or 1. -/
def lexCmp : List Nat → List Nat → Int
  | [], [] => 0
  | [], _ :: _ => -1
  | _ :: _, [] => 1
  | x :: xs, y :: ys => if x < y then -1 else if y < x then 1 else lexCmp xs ys

/-- `SortCompare` of ECMA-262 without a comparator, on strings: the order of
the UTF-16 code units. -/
def defaultCompare (x y : String) : Option Int := some (lexCmp (codeUnits x) (codeUnits y))

/-- The statement `v && set.add(v)`: an empty string is not added. -/
def addTruthy (set : JsSet) (v : String) : JsSet := if v ≠ "" then set.add v else set

/-- The three lists `populateFilterOptions` passes to `renderFilterCheckboxes`. -/
structure FilterOptions where
  categories : List String
  tags : List String
  authors : List String
deriving DecidableEq, Repr

/-- The three sets after the `forEach` over `this.codelabs`. -/
def collectFacets (codelabs : List Codelab) : JsSet × JsSet × JsSet :=
  codelabs.foldl
    (fun acc lab =>
      (lab.categories.foldl addTruthy acc.1,
       lab.tags.foldl addTruthy acc.2.1,
       lab.authors.foldl addTruthy acc.2.2))
    ([], [], [])

/-- `populateFilterOptions`: `Array.from(set).sort()` for each group. -/
def populateFilterOptions (s : AppState) : FilterOptions :=
  let sets := collectFacets s.codelabs
  { categories := arraySort defaultCompare sets.1
    tags := arraySort defaultCompare sets.2.1
    authors := arraySort defaultCompare sets.2.2 }

/-! ## The Indexer (`build-index.js`) -/

/-- A parsed `codelab.json`: every field is optional. -/
structure Metadata where
  id : Option String
  title : Option String
  summary : Option String
  categories : Option FacetField
  tags : Option FacetField
  duration : Option Nat
  updated : Option String
  authors : Option FacetField
  status : Option String
  source : Option String
deriving DecidableEq, Repr

/-- The object literal `readCodelabMetadata` returns. A facet field holds what
`metadata.x || []` evaluates to, which may be a single string. -/
structure IndexEntry where
  id : String
  title : String
  summary : String
  categories : FacetField
  tags : FacetField
  duration : Nat
  updated : String
  authors : FacetField
  status : String
  url : String
  source : String
deriving DecidableEq, Repr

/-- A path, as its components below the scanned directory `CODELABS_DIR`. -/
abbrev Path := List String

/-- `path.dirname`. -/
def dirname (p : Path) : Path := p.dropLast

/-- `path.basename`. -/
def basename (p : Path) : String := p.getLastD ""

/-- `v || d` on an optional string: missing and `""` are falsy. -/
def orString (v : Option String) (d : String) : String :=
  match v with
  | some x => if x = "" then d else x
  | none => d

/-- `v || []` on a facet field: missing and `""` are falsy, an array (also an
empty one) and a non-empty string are truthy and returned as they are. -/
def orEmptyArray (v : Option FacetField) : FacetField :=
  match v with
  | some (.array items) => .array items
  | some (.scalar x) => if x = "" then .array [] else .scalar x
  | none => .array []

/-- `v || 0` on an optional number. -/
def orZero (v : Option Nat) : Nat :=
  match v with
  | some n => if n = 0 then 0 else n
  | none => 0

/-- `readCodelabMetadata(filePath)`. `fs filePath` is the outcome of
`JSON.parse(fs.readFileSync(filePath))`, `none` when it throws; the `catch`
branch returns `null` (`none`). -/
def readCodelabMetadata (fs : Path → Option Metadata) (filePath : Path) : Option IndexEntry :=
  match fs filePath with
  | none => none
  | some metadata =>
    let dir := dirname filePath
    let urlPath := "/".intercalate dir
    some
      { id := orString metadata.id (basename dir)
        title := orString metadata.title "Untitled"
        summary := orString metadata.summary ""
        categories := orEmptyArray metadata.categories
        tags := orEmptyArray metadata.tags
        duration := orZero metadata.duration
        updated := orString metadata.updated ""
        authors := orEmptyArray metadata.authors
        status := orString metadata.status "draft"
        url := urlPath ++ "/index.html"
        source := orString metadata.source "" }

/-- The array `buildIndex` writes to the output file, given the metadata
files `findCodelabMetadata` found. -/
def buildIndex (B : Builtins) (fs : Path → Option Metadata) (metadataFiles : List Path) :
    List IndexEntry :=
  if metadataFiles.length = 0 then []
  else
    let codelabs := (metadataFiles.map (readCodelabMetadata fs)).filterMap id
    arraySort (fun a b => some (B.localeCompare a.title b.title)) codelabs

/-- One `(entry.x || []).forEach(v => set.add(v))` of the statistics loop of
`buildIndex` (lines 129-132): an array is walked; a non-empty string is truthy
and has no `forEach`, so the call throws (`none`). -/
def addAllToSet (set : JsSet) (field : FacetField) : Option JsSet :=
  match field with
  | .array items => some (items.foldl JsSet.add set)
  | .scalar value => if value = "" then some set else none

/-- The statistics `buildIndex` computes from the sorted entries after it has
written the file: the numbers of distinct categories and tags. `none` when the
loop throws; the run then prints `Build failed` and exits with status 1. -/
def buildStatistics (codelabs : List IndexEntry) : Option (Nat × Nat) :=
  (codelabs.foldlM
    (fun (acc : JsSet × JsSet) (entry : IndexEntry) =>
      match addAllToSet acc.1 entry.categories with
      | none => none
      | some categories =>
        match addAllToSet acc.2 entry.tags with
        | none => none
        | some tags => some (categories, tags))
    ([], [])).map (fun (acc : JsSet × JsSet) => (acc.1.size, acc.2.size))

/-! ## A concrete instance of the host functions

The theorems below hold for every `Builtins`. To evaluate the definitions on
concrete inputs, `sampleBuiltins` fixes one: ASCII lowercasing; a comparison
that orders letters without regard to case first and puts a lowercase letter
before the same uppercase letter on a tie, as the default collation does on
strings of ASCII letters; and a date parser that knows the dates listed. -/

/-- The sort key of `sampleCompare`: the case-folded code of each character
(shifted by one), a separator 0, then one case flag per character. -/
def collationKey (s : String) : List Nat :=
  s.data.map (fun c => (if 65 ≤ c.toNat ∧ c.toNat ≤ 90 then c.toNat + 32 else c.toNat) + 1)
    ++ [0] ++ s.data.map (fun c => if 65 ≤ c.toNat ∧ c.toNat ≤ 90 then 1 else 0)

/-- A locale-style comparison of strings of ASCII letters. -/
def sampleCompare (a b : String) : Int := lexCmp (collationKey a) (collationKey b)

/-- ASCII lowercasing. -/
def sampleLower (s : String) : String := String.mk (s.data.map Char.toLower)

/-- `Date.parse` on two ISO dates; every other string is an invalid date. -/
def sampleDateParse (u : String) : Option Int :=
  if u = "2020-01-01" then some 1577836800000
  else if u = "2024-01-01" then some 1704067200000
  else none

/-- The instance of the host functions used for concrete evaluation. -/
def sampleBuiltins : Builtins :=
  { toLowerCase := sampleLower
    localeCompare := sampleCompare
    dateParse := sampleDateParse }

/-! ## Sample data for concrete evaluation -/

/-- The state after the constructor has run and `loadCodelabs` has stored
the normalized catalog: no filter, no search text, page 1. -/
def AppState.init (codelabs : List Codelab) : AppState :=
  { codelabs := codelabs
    filteredCodelabs := []
    currentSort := "title-asc"
    selectedFilters := { categories := [], tags := [], authors := [] }
    searchQuery := ""
    currentPage := 1 }

/-- A catalog entry with the given title, facets and date. -/
def sampleLab (title : String) (categories tags authors : List String)
    (updated : Option String) : Codelab :=
  { id := title
    title := title
    summary := ""
    categories := categories
    tags := tags
    duration := none
    updated := updated
    authors := authors
    status := "draft"
    url := title ++ "/index.html"
    source := "" }

/-- A catalog of 13 entries: two pages. -/
def sampleCatalog13 : List Codelab :=
  List.replicate 13 (sampleLab "alpha" ["web"] [] [] none)

/-- A metadata file that gives `categories` as one string and omits every
other field. -/
def sampleMetadataScalar : Metadata :=
  { id := none, title := none, summary := none, categories := some (.scalar "web"),
    tags := none, duration := none, updated := none, authors := none, status := none,
    source := none }

/-- A metadata file with the title given, `tags` as a list, and `duration`,
`updated` and `authors` omitted. -/
def sampleMetadataTitled (title : String) : Metadata :=
  { id := some title, title := some title, summary := some "a summary",
    categories := some (.array ["web"]), tags := some (.array ["css", "html"]),
    duration := none, updated := none, authors := none, status := some "published",
    source := some "doc" }

/-- A directory tree with four metadata files: `scalar/codelab.json` gives a
scalar category, `c`, `a`, `b` hold the titles `Charlie`, `alpha`, `Bravo`,
and every other file fails to parse. -/
def sampleFs (filePath : Path) : Option Metadata :=
  if filePath = ["scalar", "codelab.json"] then some sampleMetadataScalar
  else if filePath = ["c", "codelab.json"] then some (sampleMetadataTitled "Charlie")
  else if filePath = ["a", "codelab.json"] then some (sampleMetadataTitled "alpha")
  else if filePath = ["b", "codelab.json"] then some (sampleMetadataTitled "Bravo")
  else none

/-- A metadata file that omits every field. -/
def sampleMetadataEmpty : Metadata :=
  { id := none, title := none, summary := none, categories := none, tags := none,
    duration := none, updated := none, authors := none, status := none, source := none }

/-- A directory tree with one metadata file, `web/intro/codelab.json`, which
omits every field. -/
def sampleFsNested (filePath : Path) : Option Metadata :=
  if filePath = ["web", "intro", "codelab.json"] then some sampleMetadataEmpty else none

/-- A loaded entry whose `categories`, `tags` and `authors` are all the single
string `"web"`. -/
def sampleRawScalar : RawCodelab :=
  { id := "x", title := "X", summary := "", categories := some (.scalar "web"),
    tags := some (.scalar "web"), duration := some 5, updated := some "2024-01-01",
    authors := some (.scalar "web"), status := "draft", url := "x/index.html", source := "" }

/-- A catalog of two entries with the categories `alpha` and `Bravo`. -/
def sampleCatalogMixedCase : List Codelab :=
  [sampleLab "one" ["alpha"] [] [] (some "2024-01-01"),
   sampleLab "two" ["Bravo", "", "alpha"] [] [] (some "2020-01-01")]

/-- A state whose selected category occurs in no entry of the catalog. -/
def sampleStateNoMatch : AppState :=
  { AppState.init sampleCatalog13 with
    selectedFilters := { categories := ["cloud"], tags := [], authors := [] } }

/-- An entry dated 2024-01-01 followed by an entry whose `updated` is not a
date, to be sorted by `updated-asc`. -/
def sampleStateBadDate : AppState :=
  { AppState.init [] with
    filteredCodelabs :=
      [sampleLab "dated" [] [] [] (some "2024-01-01"),
       sampleLab "undated" [] [] [] (some "garbage")]
    currentSort := "updated-asc" }

/-- A comparator is consistent when swapping its arguments swaps the sign of
its result and "not after" is transitive. ECMA-262 fixes the result of `sort`
only for such comparators. -/
structure ConsistentComparator {α : Type} (cmp : α → α → Int) : Prop where
  swap : ∀ a b, 0 < cmp a b ↔ cmp b a < 0
  trans : ∀ a b c, cmp a b ≤ 0 → cmp b c ≤ 0 → cmp a c ≤ 0

/-! ## User actions (`setupEventListeners`, and the listeners added by
`renderFilterCheckboxes`, `renderActiveFilters` and `renderPagination`) -/

/-- A facet group, the value of a `data-group` attribute. -/
inductive Group where
  | categories
  | tags
  | authors
deriving DecidableEq, Repr

/-- `Set.prototype.delete`. -/
def JsSet.delete (s : JsSet) (v : String) : JsSet := s.filter (fun x => x != v)

/-- `Set.prototype.clear`. -/
def JsSet.clear (_s : JsSet) : JsSet := []

/-- The set `this.selectedFilters[group]`. -/
def SelectedFilters.get (f : SelectedFilters) : Group → JsSet
  | .categories => f.categories
  | .tags => f.tags
  | .authors => f.authors

/-- The filters with the set `this.selectedFilters[group]` replaced. -/
def SelectedFilters.set (f : SelectedFilters) (group : Group) (v : JsSet) : SelectedFilters :=
  match group with
  | .categories => { f with categories := v }
  | .tags => { f with tags := v }
  | .authors => { f with authors := v }

/-- The `input` listener of the search box. -/
def onSearchInput (B : Builtins) (s : AppState) (value : String) : AppState :=
  (filterAndRender B { s with searchQuery := B.toLowerCase value, currentPage := 1 }).1

/-- The `change` listener of the sort select: the page is not reset. -/
def onSortChange (B : Builtins) (s : AppState) (value : String) : AppState :=
  (filterAndRender B { s with currentSort := value }).1

/-- The `click` listener of a `.filter-clear` button. -/
def onFilterClear (B : Builtins) (s : AppState) (group : Group) : AppState :=
  (filterAndRender B
    { s with
      selectedFilters := s.selectedFilters.set group (s.selectedFilters.get group).clear
      currentPage := 1 }).1

/-- The `click` listener of `reset-filters`. -/
def onResetFilters (B : Builtins) (s : AppState) : AppState :=
  (filterAndRender B
    { s with
      selectedFilters :=
        { categories := s.selectedFilters.categories.clear
          tags := s.selectedFilters.tags.clear
          authors := s.selectedFilters.authors.clear }
      searchQuery := ""
      currentPage := 1 }).1

/-- The `click` listener of `prev-page`. -/
def onPrevPage (s : AppState) : AppState :=
  if s.currentPage > 1 then { s with currentPage := s.currentPage - 1 } else s

/-- The `click` listener of `next-page`: its `totalPages` is computed from
`this.filteredCodelabs`. -/
def onNextPage (s : AppState) : AppState :=
  let totalPages := ceilDiv s.filteredCodelabs.length itemsPerPage
  if s.currentPage < totalPages then { s with currentPage := s.currentPage + 1 } else s

/-- The `change` listener of a filter checkbox. -/
def onCheckboxChange (B : Builtins) (s : AppState) (group : Group) (value : String)
    (checked : Bool) : AppState :=
  (filterAndRender B
    { s with
      selectedFilters :=
        s.selectedFilters.set group
          (if checked then (s.selectedFilters.get group).add value
           else (s.selectedFilters.get group).delete value)
      currentPage := 1 }).1

/-- The `click` listener of the close button of a filter chip. -/
def onChipClose (B : Builtins) (s : AppState) (group : Group) (value : String) : AppState :=
  (filterAndRender B
    { s with
      selectedFilters := s.selectedFilters.set group ((s.selectedFilters.get group).delete value)
      currentPage := 1 }).1

/-- The `click` listener of a page-number button: `parseInt` of its
`data-page`. -/
def onPageClick (s : AppState) (page : Nat) : AppState :=
  { s with currentPage := page }

/-- The page count `renderCodelabs` computes and paginates with. -/
def totalPagesShown (s : AppState) : Nat := ceilDiv (codelabsToShow s).length itemsPerPage

/-- The numbers on the page-number buttons of the pagination bar that
`renderCodelabs` draws for `s`; there is none when the bar is hidden. -/
def pageButtons (s : AppState) : List Nat :=
  match renderCodelabs s with
  | .cards _ _ _ (some pg) =>
    pg.pages.filterMap (fun t => match t with
      | .page n => some n
      | .ellipsis => none)
  | _ => []

/-- A user action. -/
inductive Action where
  | searchInput (value : String)
  | sortChange (value : String)
  | filterClear (group : Group)
  | resetFilters
  | prevPage
  | nextPage
  | checkboxChange (group : Group) (value : String) (checked : Bool)
  | chipClose (group : Group) (value : String)
  | pageClick (page : Nat)
deriving DecidableEq, Repr

/-- The listener an action runs. -/
def handleAction (B : Builtins) (s : AppState) : Action → AppState
  | .searchInput value => onSearchInput B s value
  | .sortChange value => onSortChange B s value
  | .filterClear group => onFilterClear B s group
  | .resetFilters => onResetFilters B s
  | .prevPage => onPrevPage s
  | .nextPage => onNextPage s
  | .checkboxChange group value checked => onCheckboxChange B s group value checked
  | .chipClose group value => onChipClose B s group value
  | .pageClick page => onPageClick s page

/-- An action the user can perform in state `s`: a page-number button can be
clicked only if the pagination bar drawn for `s` shows it. -/
def Action.enabled (s : AppState) : Action → Bool
  | .pageClick page => (pageButtons s).contains page
  | _ => true

/-- An action that changes the search text or a facet selection. -/
def Action.changesCriteria : Action → Bool
  | .searchInput _ => true
  | .filterClear _ => true
  | .resetFilters => true
  | .checkboxChange _ _ _ => true
  | .chipClose _ _ => true
  | _ => false

/-- The states the page can be in: `init` ends with `render()`, which runs
`filterAndRender` on a state whose `currentPage` is still 1; afterwards each
enabled action runs its listener. -/
inductive Reachable (B : Builtins) : AppState → Prop where
  | init (s : AppState) (h : s.currentPage = 1) : Reachable B (filterAndRender B s).1
  | act (s : AppState) (a : Action) (hs : Reachable B s) (ha : a.enabled s = true) :
      Reachable B (handleAction B s a)

/-- The decomposition of the one precomposed letter `sampleCanonicalCompare`
knows: U+00E9 is `e` followed by the combining acute accent U+0301. -/
def sampleDecompose (c : Char) : List Nat :=
  if c.toNat = 0xE9 then [0x65, 0x301] else [c.toNat]

/-- A comparison that, like `localeCompare`, returns 0 on canonically
equivalent strings: it compares the decomposed code points. -/
def sampleCanonicalCompare (a b : String) : Int :=
  lexCmp (a.data.flatMap sampleDecompose) (b.data.flatMap sampleDecompose)

/-- The host functions with `sampleCanonicalCompare` as the comparison. -/
def sampleBuiltinsCanonical : Builtins :=
  { sampleBuiltins with localeCompare := sampleCanonicalCompare }

/-- The title `é` as the single code point U+00E9. -/
def titleComposed : String := String.mk [Char.ofNat 0xE9]

/-- The title `é` as `e` followed by U+0301. -/
def titleDecomposed : String := String.mk [Char.ofNat 0x65, Char.ofNat 0x301]

/-- A filtered list of two entries whose titles are different strings that
are canonically equivalent. -/
def sampleStateEquivalentTitles : AppState :=
  { AppState.init [] with
    filteredCodelabs :=
      [sampleLab titleComposed [] [] [] none, sampleLab titleDecomposed [] [] [] none] }

/-- A filtered list of three entries with the titles `Charlie`, `alpha`,
`Bravo`. -/
def sampleStateThreeTitles : AppState :=
  { AppState.init [] with
    filteredCodelabs :=
      [sampleLab "Charlie" [] [] [] none, sampleLab "alpha" [] [] [] none,
       sampleLab "Bravo" [] [] [] none] }

/-! # Theorems -/

/-! ## Lemmas on substring search -/

theorem startsWith_iff (s q : List Char) :
    startsWith s q = true ↔ ∃ post, s = q ++ post := by
  induction q generalizing s with
  | nil => cases s <;> simp [startsWith]
  | cons d ds ih =>
    cases s with
    | nil => simp [startsWith]
    | cons c cs =>
      simp only [startsWith, Bool.and_eq_true, beq_iff_eq, ih, List.cons_append,
        List.cons.injEq]
      constructor
      · rintro ⟨rfl, post, rfl⟩
        exact ⟨post, rfl, rfl⟩
      · rintro ⟨post, rfl, rfl⟩
        exact ⟨rfl, post, rfl⟩

theorem includesChars_iff (s q : List Char) :
    includesChars s q = true ↔ ∃ pre post, s = pre ++ q ++ post := by
  induction s with
  | nil =>
    simp only [includesChars, startsWith_iff]
    constructor
    · rintro ⟨post, h⟩
      exact ⟨[], post, by simpa using h⟩
    · rintro ⟨pre, post, h⟩
      have h1 : pre = [] := by
        cases pre with
        | nil => rfl
        | cons a as => simp at h
      subst h1
      exact ⟨post, by simpa using h⟩
  | cons c cs ih =>
    simp only [includesChars, Bool.or_eq_true, startsWith_iff, ih]
    constructor
    · rintro (⟨post, h⟩ | ⟨pre, post, h⟩)
      · exact ⟨[], post, by simpa using h⟩
      · exact ⟨c :: pre, post, by simp [h]⟩
    · rintro ⟨pre, post, h⟩
      cases pre with
      | nil => exact Or.inl ⟨post, by simpa using h⟩
      | cons a as =>
        simp only [List.cons_append, List.cons.injEq] at h
        exact Or.inr ⟨as, post, by simpa using h.2⟩

theorem includes_iff (s q : String) :
    includes s q = true ↔ ∃ pre post, s.data = pre ++ q.data ++ post :=
  includesChars_iff s.data q.data

theorem any_has_iff (xs : List String) (S : JsSet) :
    xs.any (fun x => S.has x) = true ↔ ∃ x ∈ xs, x ∈ S := by
  simp [JsSet.has, List.any_eq_true]

theorem size_pos_iff (S : JsSet) : S.size > 0 ↔ S ≠ [] := by
  cases S <;> simp [JsSet.size]

theorem guard_chain (g1 g2 g3 g4 : Prop) [Decidable g1] [Decidable g2] [Decidable g3]
    [Decidable g4] :
    (if g1 then false else if g2 then false else if g3 then false
      else if g4 then false else true) = true ↔ ¬g1 ∧ ¬g2 ∧ ¬g3 ∧ ¬g4 := by
  split_ifs <;> simp [*]

theorem facet_guard_iff (xs : List String) (S : JsSet) :
    ¬(S.size > 0 ∧ (!(xs.any (fun x => S.has x))) = true) ↔ (S = [] ∨ ∃ x ∈ xs, x ∈ S) := by
  rw [← any_has_iff, size_pos_iff]
  cases h : xs.any (fun x => S.has x) <;> simp

theorem search_guard_iff (text q : String) :
    ¬(q ≠ "" ∧ (!(includes text q)) = true) ↔
      (q = "" ∨ ∃ pre post, text.data = pre ++ q.data ++ post) := by
  rw [← includes_iff]
  cases h : includes text q <;> simp

theorem filterCallback_iff (B : Builtins) (s : AppState) (e : Codelab) :
    filterCallback B s e = true ↔
      matchesSpec B s.searchQuery s.selectedFilters.categories s.selectedFilters.tags
        s.selectedFilters.authors e := by
  unfold filterCallback matchesSpec
  rw [guard_chain, facet_guard_iff, facet_guard_iff, facet_guard_iff, search_guard_iff]
  unfold searchableText joinSpace
  tauto

/-- C1: the array `filterAndRender` computes before sorting is the catalog
filtered, in catalog order, by a test that holds of an entry exactly when the
entry satisfies the facet AND/OR rule and the substring search rule. -/
theorem filterStep_spec (B : Builtins) (s : AppState) :
    (filterStep B s).filteredCodelabs = s.codelabs.filter (filterCallback B s) ∧
    (∀ e, filterCallback B s e = true ↔
      matchesSpec B s.searchQuery s.selectedFilters.categories s.selectedFilters.tags
        s.selectedFilters.authors e) ∧
    (∀ e, e ∈ (filterStep B s).filteredCodelabs ↔
      e ∈ s.codelabs ∧
      matchesSpec B s.searchQuery s.selectedFilters.categories s.selectedFilters.tags
        s.selectedFilters.authors e) := by
  refine ⟨rfl, filterCallback_iff B s, ?_⟩
  intro e
  simp [filterStep, List.mem_filter, filterCallback_iff]

/-! ## Pagination -/

theorem slice_nonneg {α : Type} (xs : List α) (a b : Nat) :
    slice xs (a : Int) ((a : Int) + (b : Int)) = (xs.drop a).take b := by
  unfold slice
  have h1 : ¬ ((a : Int) < 0) := by omega
  have h2 : ¬ ((a : Int) + (b : Int) < 0) := by omega
  simp only [h1, h2, if_false]
  by_cases h : a ≤ xs.length
  · have hk : min (a : Int) (xs.length : Int) = (a : Int) := by omega
    rw [hk]
    have hd : (xs.drop a).length = xs.length - a := List.length_drop a xs
    by_cases hb : a + b ≤ xs.length
    · have hf : (min ((a : Int) + (b : Int)) (xs.length : Int) - (a : Int)).toNat = b := by omega
      rw [hf, Int.toNat_ofNat]
    · have hf : (min ((a : Int) + (b : Int)) (xs.length : Int) - (a : Int)).toNat
          = xs.length - a := by omega
      rw [hf, Int.toNat_ofNat]
      rw [List.take_of_length_le (by omega), List.take_of_length_le (by omega)]
  · have hk : (min (a : Int) (xs.length : Int)).toNat = xs.length := by omega
    rw [hk]
    rw [List.drop_of_length_le (le_refl _), List.drop_of_length_le (by omega)]
    simp

theorem pages_concat {α : Type} (xs : List α) (d n : Nat) :
    (List.range n).flatMap (fun i => (xs.drop (i * d)).take d) = xs.take (n * d) := by
  induction n with
  | zero => simp
  | succ n ih =>
    rw [List.range_succ, List.flatMap_append, ih]
    simp only [List.flatMap_cons, List.flatMap_nil, List.append_nil]
    rw [Nat.succ_mul, List.take_add]

theorem ceilDiv_mul_ge (n : Nat) : n ≤ ceilDiv n itemsPerPage * itemsPerPage := by
  unfold ceilDiv itemsPerPage
  omega

theorem visible_eq (s : AppState) (i : Nat) (h : codelabsToShow s ≠ []) :
    (renderCodelabs { s with currentPage := i + 1 }).visible
      = ((codelabsToShow s).drop (i * itemsPerPage)).take itemsPerPage := by
  have hs : codelabsToShow { s with currentPage := i + 1 } = codelabsToShow s := rfl
  have hl : (codelabsToShow s).length ≠ 0 := by
    intro h0
    exact h (List.length_eq_zero.mp h0)
  unfold renderCodelabs
  simp only [hs, hl, if_false, View.visible]
  have e : (((i + 1 : Nat) : Int) - 1) * (itemsPerPage : Int) = ((i * itemsPerPage : Nat) : Int) := by
    push_cast
    ring
  rw [e, slice_nonneg]

/-- C2: for a non-empty displayed sequence, the slices `renderCodelabs` shows
for `currentPage = 1, ..., totalPages`, with `totalPages = ceil(N / 12)`,
concatenate to the displayed sequence itself, and no slice has more than 12
entries. -/
theorem pagination_coverage (s : AppState) (h : codelabsToShow s ≠ []) :
    (List.range (ceilDiv (codelabsToShow s).length itemsPerPage)).flatMap
        (fun i => (renderCodelabs { s with currentPage := i + 1 }).visible)
      = codelabsToShow s ∧
    (∀ i, ∃ pageCodelabs pagination,
      renderCodelabs { s with currentPage := i + 1 }
        = View.cards (codelabsToShow s).length pageCodelabs
            (ceilDiv (codelabsToShow s).length 12) pagination ∧
      pageCodelabs.length ≤ 12) := by
  constructor
  · have hv : (fun i => (renderCodelabs { s with currentPage := i + 1 }).visible)
        = (fun i => ((codelabsToShow s).drop (i * itemsPerPage)).take itemsPerPage) := by
      funext i
      exact visible_eq s i h
    rw [hv, pages_concat]
    exact List.take_of_length_le (ceilDiv_mul_ge _)
  · intro i
    have hv := visible_eq s i h
    have hs : codelabsToShow { s with currentPage := i + 1 } = codelabsToShow s := rfl
    have hl : (codelabsToShow s).length ≠ 0 := by
      intro h0
      exact h (List.length_eq_zero.mp h0)
    unfold renderCodelabs at hv ⊢
    simp only [hs, hl, if_false, View.visible] at hv ⊢
    refine ⟨_, _, rfl, ?_⟩
    rw [hv]
    simp only [List.length_take, itemsPerPage]
    omega

theorem pagination_coverage_witness :
    codelabsToShow (AppState.init sampleCatalog13) ≠ [] ∧
    ((List.range (ceilDiv (codelabsToShow (AppState.init sampleCatalog13)).length
          itemsPerPage)).flatMap
        (fun i => (renderCodelabs
          { AppState.init sampleCatalog13 with currentPage := i + 1 }).visible)
      = codelabsToShow (AppState.init sampleCatalog13) ∧
    (∀ i, ∃ pageCodelabs pagination,
      renderCodelabs { AppState.init sampleCatalog13 with currentPage := i + 1 }
        = View.cards (codelabsToShow (AppState.init sampleCatalog13)).length pageCodelabs
            (ceilDiv (codelabsToShow (AppState.init sampleCatalog13)).length 12) pagination ∧
      pageCodelabs.length ≤ 12)) :=
  ⟨by decide, pagination_coverage (AppState.init sampleCatalog13) (by decide)⟩

/-! ## Page-number tokens -/

/-- C3, as stated, fails when there is a single page: `renderPagination`
returns before it builds any token, so no list `[1]` is produced. -/
theorem renderPagination_single_page_no_tokens :
    ¬ ∃ pg, renderPagination (AppState.init sampleCatalog13) 1 = some pg ∧
        pg.pages = [PageToken.page 1] := by
  rintro ⟨pg, h, -⟩
  simp [renderPagination] at h

/-- C3, amended: with at least two pages and `1 <= currentPage <= totalPages`
the token list has at most 7 tokens and is `[1..totalPages]` up to 5 pages,
the head window for `currentPage <= 3`, the tail window for
`currentPage >= totalPages - 2`, and the middle window otherwise; for 10 pages
it is `[1,2,3,4,...,10]` on page 1 and `[1,...,7,8,9,10]` on page 8. With at
most one page the bar is hidden and no token list is built. -/
theorem renderPagination_tokens (s : AppState) (totalPages : Nat)
    (h2 : 2 ≤ totalPages) (h1 : 1 ≤ s.currentPage) (_hc : s.currentPage ≤ totalPages) :
    (∃ pg, renderPagination s totalPages = some pg ∧ pg.pages.length ≤ 7 ∧
        (totalPages ≤ 5 →
          pg.pages.length = totalPages ∧
          ∀ i, i < totalPages → pg.pages[i]? = some (PageToken.page (i + 1))) ∧
        (5 < totalPages → s.currentPage ≤ 3 →
          pg.pages = [.page 1, .page 2, .page 3, .page 4, .ellipsis, .page totalPages]) ∧
        (5 < totalPages → 3 < s.currentPage → totalPages - 2 ≤ s.currentPage →
          pg.pages = [.page 1, .ellipsis, .page (totalPages - 3), .page (totalPages - 2),
            .page (totalPages - 1), .page totalPages]) ∧
        (5 < totalPages → 3 < s.currentPage → s.currentPage < totalPages - 2 →
          pg.pages = [.page 1, .ellipsis, .page (s.currentPage - 1), .page s.currentPage,
            .page (s.currentPage + 1), .ellipsis, .page totalPages])) ∧
    (∃ pg, renderPagination { s with currentPage := 1 } 10 = some pg ∧
      pg.pages = [.page 1, .page 2, .page 3, .page 4, .ellipsis, .page 10]) ∧
    (∃ pg, renderPagination { s with currentPage := 8 } 10 = some pg ∧
      pg.pages = [.page 1, .ellipsis, .page 7, .page 8, .page 9, .page 10]) ∧
    (∀ t, t ≤ 1 → renderPagination s t = none) := by
  refine ⟨?_, ⟨_, rfl, rfl⟩, ⟨_, rfl, rfl⟩, fun t ht => by simp [renderPagination, ht]⟩
  have hn : ¬ totalPages ≤ 1 := by omega
  by_cases h5 : totalPages ≤ 5
  · refine ⟨_, by simp only [renderPagination, hn, if_false, h5, if_true]; rfl, ?_, ?_, ?_, ?_, ?_⟩
    · simp; omega
    · intro _
      refine ⟨by simp, ?_⟩
      intro i hi
      simp [List.getElem?_map, List.getElem?_range', hi]
      omega
    · intro h; omega
    · intro h; omega
    · intro h; omega
  · by_cases h3 : s.currentPage ≤ 3
    · refine ⟨_, by simp only [renderPagination, hn, if_false, h5, h3, if_true]; rfl,
        ?_, ?_, ?_, ?_, ?_⟩
      · simp
      · intro h; omega
      · intro _ _; rfl
      · intro _ h; omega
      · intro _ h; omega
    · by_cases ht : s.currentPage ≥ totalPages - 2
      · refine ⟨_, by simp only [renderPagination, hn, if_false, h5, h3, ht, if_true]; rfl,
          ?_, ?_, ?_, ?_, ?_⟩
        · simp
        · intro h; omega
        · intro _ h; omega
        · intro _ _ _; rfl
        · intro _ _ h; omega
      · refine ⟨_, by simp only [renderPagination, hn, if_false, h5, h3, ht]; rfl,
          ?_, ?_, ?_, ?_, ?_⟩
        · simp
        · intro h; omega
        · intro _ h; omega
        · intro _ _ h; omega
        · intro _ _ _; rfl

theorem renderPagination_tokens_witness :
    (2 ≤ 10 ∧ 1 ≤ ({ AppState.init sampleCatalog13 with currentPage := 5 } : AppState).currentPage
      ∧ ({ AppState.init sampleCatalog13 with currentPage := 5 } : AppState).currentPage ≤ 10) ∧
    ∃ pg, renderPagination { AppState.init sampleCatalog13 with currentPage := 5 } 10 = some pg ∧
      pg.pages = [.page 1, .ellipsis, .page 4, .page 5, .page 6, .ellipsis, .page 10] := by
  refine ⟨⟨by decide, by decide, by decide⟩, ?_⟩
  obtain ⟨pg, hpg, -, -, -, -, hmid⟩ :=
    (renderPagination_tokens { AppState.init sampleCatalog13 with currentPage := 5 } 10
      (by decide) (by decide) (by decide)).1
  exact ⟨pg, hpg, hmid (by decide) (by decide) (by decide)⟩

/-! ## The Indexer: field defaults and facet fields -/

/-- C4 fails on a single string: a category given as `"web"` is put in the
entry as that bare string, not as the sequence `["web"]`; the statistics loop
of `buildIndex`, which walks `categories` as an array, throws on this entry. -/
theorem readCodelabMetadata_scalar_not_wrapped :
    (∃ e, readCodelabMetadata sampleFs ["scalar", "codelab.json"] = some e ∧
      e.categories = FacetField.scalar "web") ∧
    (¬ ∃ e, readCodelabMetadata sampleFs ["scalar", "codelab.json"] = some e ∧
      e.categories = FacetField.array ["web"]) ∧
    (buildIndex sampleBuiltins sampleFs [["scalar", "codelab.json"]]).map IndexEntry.categories
      = [FacetField.scalar "web"] ∧
    buildStatistics (buildIndex sampleBuiltins sampleFs [["scalar", "codelab.json"]]) = none ∧
    buildStatistics (buildIndex sampleBuiltins sampleFs [["c", "codelab.json"]])
      = some (1, 2) := by
  refine ⟨⟨_, rfl, rfl⟩, ?_, by decide, by decide, by decide⟩
  rintro ⟨e, he, hc⟩
  have h : readCodelabMetadata sampleFs ["scalar", "codelab.json"] = some
      { id := "scalar", title := "Untitled", summary := "", categories := .scalar "web",
        tags := .array [], duration := 0, updated := "", authors := .array [],
        status := "draft", url := "scalar/index.html", source := "" } := by rfl
  rw [h] at he
  cases he
  simp at hc

theorem orEmptyArray_cases (v : Option FacetField) :
    (∀ items, v = some (.array items) → orEmptyArray v = .array items) ∧
    (v = none → orEmptyArray v = .array []) ∧
    (v = some (.scalar "") → orEmptyArray v = .array []) ∧
    (∀ x, x ≠ "" → v = some (.scalar x) → orEmptyArray v = .scalar x) := by
  refine ⟨?_, ?_, ?_, ?_⟩
  · rintro items rfl; rfl
  · rintro rfl; rfl
  · rintro rfl; rfl
  · rintro x hx rfl
    simp [orEmptyArray, hx]

/-- What `metadata.x || []` gives for each of `categories`, `tags` and
`authors`: a list stays that list, an omitted field (or an empty string)
becomes the empty sequence, and a non-empty single string is handed on as it
is, unwrapped. -/
theorem readCodelabMetadata_facets (fs : Path → Option Metadata) (filePath : Path)
    (metadata : Metadata) (h : fs filePath = some metadata) :
    ∃ e, readCodelabMetadata fs filePath = some e ∧
      ((∀ items, metadata.categories = some (.array items) → e.categories = .array items) ∧
        (metadata.categories = none → e.categories = .array []) ∧
        (metadata.categories = some (.scalar "") → e.categories = .array []) ∧
        (∀ x, x ≠ "" → metadata.categories = some (.scalar x) → e.categories = .scalar x)) ∧
      ((∀ items, metadata.tags = some (.array items) → e.tags = .array items) ∧
        (metadata.tags = none → e.tags = .array []) ∧
        (metadata.tags = some (.scalar "") → e.tags = .array []) ∧
        (∀ x, x ≠ "" → metadata.tags = some (.scalar x) → e.tags = .scalar x)) ∧
      ((∀ items, metadata.authors = some (.array items) → e.authors = .array items) ∧
        (metadata.authors = none → e.authors = .array []) ∧
        (metadata.authors = some (.scalar "") → e.authors = .array []) ∧
        (∀ x, x ≠ "" → metadata.authors = some (.scalar x) → e.authors = .scalar x)) := by
  refine ⟨_, by simp only [readCodelabMetadata, h]; rfl, ?_, ?_, ?_⟩
  · exact orEmptyArray_cases metadata.categories
  · exact orEmptyArray_cases metadata.tags
  · exact orEmptyArray_cases metadata.authors

theorem readCodelabMetadata_facets_sample :
    sampleFs ["c", "codelab.json"] = some (sampleMetadataTitled "Charlie") ∧
    ∃ e, readCodelabMetadata sampleFs ["c", "codelab.json"] = some e ∧
      e.categories = .array ["web"] ∧ e.tags = .array ["css", "html"] ∧
      e.authors = .array [] := by
  refine ⟨by decide, ?_⟩
  obtain ⟨e, he, hc, ht, ha⟩ :=
    readCodelabMetadata_facets sampleFs ["c", "codelab.json"] (sampleMetadataTitled "Charlie")
      (by decide)
  exact ⟨e, he, hc.1 ["web"] rfl, ht.1 ["css", "html"] rfl, ha.2.1 rfl⟩

theorem dirname_file (parent : Path) (d fileName : String) :
    dirname (parent ++ [d, fileName]) = parent ++ [d] := by
  have e : parent ++ [d, fileName] = (parent ++ [d]) ++ [fileName] := by simp
  rw [dirname, e, List.dropLast_concat]

theorem basename_dir (parent : Path) (d : String) : basename (parent ++ [d]) = d := by
  simp [basename]

/-- C8: in the entry `readCodelabMetadata` builds from a parsed metadata
file `fileName` lying in a directory named `d` (below any `parent`), every
omitted field has its default: `id` is `d`, `title` `"Untitled"`, `summary`
`""`, `categories` `[]`, `tags` `[]`, `duration` 0, `updated` `""`, `authors`
`[]`, `status` `"draft"`, `source` `""`. -/
theorem readCodelabMetadata_defaults (fs : Path → Option Metadata) (parent : Path)
    (d fileName : String) (metadata : Metadata)
    (h : fs (parent ++ [d, fileName]) = some metadata) :
    ∃ e, readCodelabMetadata fs (parent ++ [d, fileName]) = some e ∧
      (metadata.id = none → e.id = d) ∧
      (metadata.title = none → e.title = "Untitled") ∧
      (metadata.summary = none → e.summary = "") ∧
      (metadata.categories = none → e.categories = .array []) ∧
      (metadata.tags = none → e.tags = .array []) ∧
      (metadata.duration = none → e.duration = 0) ∧
      (metadata.updated = none → e.updated = "") ∧
      (metadata.authors = none → e.authors = .array []) ∧
      (metadata.status = none → e.status = "draft") ∧
      (metadata.source = none → e.source = "") := by
  refine ⟨_, by simp only [readCodelabMetadata, h]; rfl, ?_, ?_, ?_, ?_, ?_, ?_, ?_, ?_, ?_, ?_⟩
  · intro h0
    simp only [h0, orString, dirname_file, basename_dir]
  all_goals
    intro h0
    simp only [h0, orString, orEmptyArray, orZero]

theorem readCodelabMetadata_defaults_witness :
    sampleFsNested (["web"] ++ ["intro", "codelab.json"]) = some sampleMetadataEmpty ∧
    readCodelabMetadata sampleFsNested ["web", "intro", "codelab.json"] = some
      { id := "intro", title := "Untitled", summary := "", categories := .array [],
        tags := .array [], duration := 0, updated := "", authors := .array [],
        status := "draft", url := "web/intro/index.html", source := "" } ∧
    ∃ e, readCodelabMetadata sampleFsNested (["web"] ++ ["intro", "codelab.json"]) = some e ∧
      e.id = "intro" ∧ e.duration = 0 ∧ e.updated = "" ∧ e.authors = .array [] := by
  refine ⟨by decide, by decide, ?_⟩
  obtain ⟨e, he, hi, -, -, -, -, hd, hu, ha, -, -⟩ :=
    readCodelabMetadata_defaults sampleFsNested ["web"] "intro" "codelab.json"
      sampleMetadataEmpty (by decide)
  exact ⟨e, he, hi rfl, hd rfl, hu rfl, ha rfl⟩

/-! ## Normalization on load -/

/-- C5 fails on `tags`: a loaded entry whose three facet fields are all the
single string `"web"` is normalized to `categories = ["web"]` and
`authors = ["web"]`, but to `tags = []`. -/
theorem normalizeEntry_scalar_tags_dropped :
    (normalizeEntry sampleRawScalar).categories = ["web"] ∧
    (normalizeEntry sampleRawScalar).authors = ["web"] ∧
    (normalizeEntry sampleRawScalar).tags = [] ∧
    (normalizeEntry sampleRawScalar).tags ≠ ["web"] := by
  refine ⟨by decide, by decide, by decide, by decide⟩

/-! ## Comparators and `sort` -/

theorem lexCmp_swap (a b : List Nat) : lexCmp b a = -lexCmp a b := by
  induction a generalizing b with
  | nil => cases b <;> simp [lexCmp]
  | cons x xs ih =>
    cases b with
    | nil => simp [lexCmp]
    | cons y ys =>
      simp only [lexCmp]
      by_cases h1 : x < y
      · have h2 : ¬ y < x := by omega
        simp [h1, h2]
      · by_cases h2 : y < x
        · simp [h1, h2]
        · simp [h1, h2, ih ys]

theorem lexCmp_trans (a b c : List Nat) :
    lexCmp a b ≤ 0 → lexCmp b c ≤ 0 → lexCmp a c ≤ 0 := by
  induction a generalizing b c with
  | nil => cases c <;> simp [lexCmp]
  | cons x xs ih =>
    cases b with
    | nil => simp [lexCmp]
    | cons y ys =>
      cases c with
      | nil =>
        intro _ h
        simp [lexCmp] at h
      | cons z zs =>
        simp only [lexCmp]
        by_cases hxy : x < y
        · by_cases hyz : y < z
          · have hxz : x < z := by omega
            simp [hxy, hyz, hxz]
          · by_cases hzy : z < y
            · simp [hyz, hzy]
            · have hxz : x < z := by omega
              simp [hxy, hxz]
        · by_cases hyx : y < x
          · simp [hxy, hyx]
          · have e : x = y := by omega
            subst e
            by_cases hxz : x < z
            · simp [hxz]
            · by_cases hzx : z < x
              · simp [hxz, hzx]
              · simp only [hxz, hzx, if_false, lt_irrefl]
                exact ih ys zs

theorem lexCmp_eq_zero (a b : List Nat) : lexCmp a b = 0 → a = b := by
  induction a generalizing b with
  | nil => cases b <;> simp [lexCmp]
  | cons x xs ih =>
    cases b with
    | nil => simp [lexCmp]
    | cons y ys =>
      simp only [lexCmp]
      by_cases h1 : x < y
      · simp [h1]
      · by_cases h2 : y < x
        · simp [h1, h2]
        · have e : x = y := by omega
          simp only [h1, h2, if_false]
          intro h
          rw [e, ih ys h]

theorem lexCmp_consistent {α : Type} (key : α → List Nat) :
    ConsistentComparator (fun a b => lexCmp (key a) (key b)) where
  swap := by
    intro a b
    have h := lexCmp_swap (key a) (key b)
    constructor <;> intro h' <;> simp only [] at h' ⊢ <;> omega
  trans := fun a b c => lexCmp_trans (key a) (key b) (key c)

theorem sampleCompare_consistent : ConsistentComparator sampleBuiltins.localeCompare :=
  lexCmp_consistent collationKey

theorem ConsistentComparator.total {α : Type} {cmp : α → α → Int}
    (h : ConsistentComparator cmp) (a b : α) : cmp a b ≤ 0 ∨ cmp b a ≤ 0 := by
  by_cases h1 : cmp a b ≤ 0
  · exact Or.inl h1
  · right
    have := (h.swap a b).mp (by omega)
    omega

theorem arraySort_perm {α : Type} (comparefn : α → α → Option Int) (xs : List α) :
    (arraySort comparefn xs).Perm xs :=
  List.perm_insertionSort _ xs

theorem arraySort_sorted {α : Type} (cmp : α → α → Int) (h : ConsistentComparator cmp)
    (xs : List α) :
    List.Sorted (fun a b => cmp a b ≤ 0) (arraySort (fun a b => some (cmp a b)) xs) := by
  have tot : IsTotal α (fun a b => cmp a b ≤ 0) := ⟨h.total⟩
  have tr : IsTrans α (fun a b => cmp a b ≤ 0) := ⟨h.trans⟩
  exact List.sorted_insertionSort (fun a b => cmp a b ≤ 0) xs

theorem consistent_on_key {α β : Type} {cmp : β → β → Int} (h : ConsistentComparator cmp)
    (key : α → β) : ConsistentComparator (fun a b => cmp (key a) (key b)) where
  swap := fun a b => h.swap (key a) (key b)
  trans := fun a b c => h.trans (key a) (key b) (key c)

/-! ## The Indexer: the written sequence -/

theorem orderedInsert_after {α : Type} (r : α → α → Prop) [DecidableRel r] (a b : α)
    (l : List α) (h : ¬ r a b) :
    List.orderedInsert r a (b :: l) = b :: List.orderedInsert r a l := by
  simp [List.orderedInsert, h]

theorem orderedInsert_before {α : Type} (r : α → α → Prop) [DecidableRel r] (a b : α)
    (l : List α) (h : r a b) :
    List.orderedInsert r a (b :: l) = a :: b :: l := by
  simp [List.orderedInsert, h]

theorem buildIndex_eq (B : Builtins) (fs : Path → Option Metadata) (metadataFiles : List Path) :
    buildIndex B fs metadataFiles
      = arraySort (fun a b => some (B.localeCompare a.title b.title))
          (metadataFiles.filterMap (readCodelabMetadata fs)) := by
  unfold buildIndex
  by_cases h : metadataFiles.length = 0
  · have h0 : metadataFiles = [] := List.length_eq_zero.mp h
    subst h0
    rfl
  · simp only [h, if_false, List.filterMap_map]
    rfl

/-- C7: with a consistent locale comparison, the sequence `buildIndex` writes
is sorted ascending by title and is a permutation of the entries of the files
that read and parse (a failing file adds nothing and stops nothing, equal
records are all kept); three files titled `Charlie`, `alpha`, `Bravo`, which
the locale comparison orders `alpha < Bravo < Charlie`, are written in the
order `alpha`, `Bravo`, `Charlie`. -/
theorem buildIndex_sorted_perm (B : Builtins) (hB : ConsistentComparator B.localeCompare)
    (fs : Path → Option Metadata) (metadataFiles : List Path) :
    List.Sorted (fun a b => B.localeCompare a.title b.title ≤ 0)
      (buildIndex B fs metadataFiles) ∧
    (buildIndex B fs metadataFiles).Perm (metadataFiles.filterMap (readCodelabMetadata fs)) ∧
    (∀ f1 f2 f3 e1 e2 e3, metadataFiles = [f1, f2, f3] →
      readCodelabMetadata fs f1 = some e1 → readCodelabMetadata fs f2 = some e2 →
      readCodelabMetadata fs f3 = some e3 →
      e1.title = "Charlie" → e2.title = "alpha" → e3.title = "Bravo" →
      B.localeCompare "alpha" "Bravo" < 0 → B.localeCompare "Bravo" "Charlie" < 0 →
      buildIndex B fs metadataFiles = [e2, e3, e1]) := by
  rw [buildIndex_eq]
  refine ⟨?_, arraySort_perm _ _, ?_⟩
  · exact arraySort_sorted (fun a b : IndexEntry => B.localeCompare a.title b.title)
      (consistent_on_key hB IndexEntry.title) _
  · intro f1 f2 f3 e1 e2 e3 hf h1 h2 h3 t1 t2 t3 hab hbc
    subst hf
    have hcb : 0 < B.localeCompare "Charlie" "Bravo" := (hB.swap _ _).mpr hbc
    have hca : ¬ B.localeCompare "Charlie" "alpha" ≤ 0 := by
      intro h
      have := hB.trans _ _ _ h (le_of_lt hab)
      omega
    simp only [List.filterMap_cons, h1, h2, h3, List.filterMap_nil, arraySort,
      List.insertionSort]
    have s1 : List.orderedInsert
        (fun a b : IndexEntry => sortCompare (some (B.localeCompare a.title b.title)) ≤ 0)
        e3 [] = [e3] := rfl
    rw [s1]
    rw [orderedInsert_before _ e2 e3 []
      (by show B.localeCompare e2.title e3.title ≤ 0; rw [t2, t3]; exact le_of_lt hab)]
    rw [orderedInsert_after _ e1 e2 [e3]
      (by show ¬ B.localeCompare e1.title e2.title ≤ 0; rw [t1, t2]; exact hca)]
    rw [orderedInsert_after _ e1 e3 []
      (by show ¬ B.localeCompare e1.title e3.title ≤ 0; rw [t1, t3]; omega)]
    rfl

theorem buildIndex_sorted_perm_witness :
    ConsistentComparator sampleBuiltins.localeCompare ∧
    (buildIndex sampleBuiltins sampleFs
        [["c", "codelab.json"], ["broken", "codelab.json"], ["a", "codelab.json"],
          ["b", "codelab.json"], ["a", "codelab.json"]]).map IndexEntry.title
      = ["alpha", "alpha", "Bravo", "Charlie"] ∧
    List.Sorted (fun a b => sampleBuiltins.localeCompare a.title b.title ≤ 0)
      (buildIndex sampleBuiltins sampleFs
        [["c", "codelab.json"], ["broken", "codelab.json"], ["a", "codelab.json"],
          ["b", "codelab.json"], ["a", "codelab.json"]]) :=
  ⟨sampleCompare_consistent, by decide,
    (buildIndex_sorted_perm sampleBuiltins sampleCompare_consistent sampleFs _).1⟩

theorem buildIndex_three_files :
    (buildIndex sampleBuiltins sampleFs
        [["c", "codelab.json"], ["a", "codelab.json"], ["b", "codelab.json"]]).map
      (fun e => (e.title, e.url))
      = [("alpha", "a/index.html"), ("Bravo", "b/index.html"), ("Charlie", "c/index.html")] := by
  decide

/-! ## Facet options -/

theorem add_of_mem (S : JsSet) (v : String) (h : v ∈ S) : S.add v = S := by
  simp [JsSet.add, h]

theorem add_of_not_mem (S : JsSet) (v : String) (h : v ∉ S) : S.add v = S ++ [v] := by
  simp [JsSet.add, h]

theorem mem_add (S : JsSet) (v x : String) : x ∈ S.add v ↔ x ∈ S ∨ x = v := by
  by_cases h : v ∈ S
  · rw [add_of_mem S v h]
    constructor
    · exact Or.inl
    · rintro (h1 | rfl)
      · exact h1
      · exact h
  · rw [add_of_not_mem S v h]
    simp

theorem nodup_add (S : JsSet) (v : String) (h : S.Nodup) : (S.add v).Nodup := by
  by_cases hv : v ∈ S
  · rw [add_of_mem S v hv]
    exact h
  · rw [add_of_not_mem S v hv, List.nodup_append]
    refine ⟨h, List.nodup_singleton v, ?_⟩
    intro a ha hb
    simp only [List.mem_singleton] at hb
    subst hb
    exact hv ha

theorem mem_foldl_addTruthy (xs : List String) (acc : JsSet) (x : String) :
    x ∈ xs.foldl addTruthy acc ↔ x ∈ acc ∨ (x ≠ "" ∧ x ∈ xs) := by
  induction xs generalizing acc with
  | nil => simp
  | cons v vs ih =>
    rw [List.foldl_cons, ih]
    unfold addTruthy
    by_cases hv : v = ""
    · subst hv
      simp only [ne_eq, not_true_eq_false, if_false, List.mem_cons]
      constructor
      · rintro (h | ⟨h1, h2⟩)
        · exact Or.inl h
        · exact Or.inr ⟨h1, Or.inr h2⟩
      · rintro (h | ⟨h1, h2 | h2⟩)
        · exact Or.inl h
        · exact absurd h2 h1
        · exact Or.inr ⟨h1, h2⟩
    · simp only [ne_eq, hv, not_false_eq_true, if_true, mem_add, List.mem_cons]
      constructor
      · rintro ((h | h) | ⟨h1, h2⟩)
        · exact Or.inl h
        · exact Or.inr ⟨by rw [h]; exact hv, Or.inl h⟩
        · exact Or.inr ⟨h1, Or.inr h2⟩
      · rintro (h | ⟨h1, h2 | h2⟩)
        · exact Or.inl (Or.inl h)
        · exact Or.inl (Or.inr h2)
        · exact Or.inr ⟨h1, h2⟩

theorem nodup_foldl_addTruthy (xs : List String) (acc : JsSet) (h : acc.Nodup) :
    (xs.foldl addTruthy acc).Nodup := by
  induction xs generalizing acc with
  | nil => simpa using h
  | cons v vs ih =>
    rw [List.foldl_cons]
    apply ih
    unfold addTruthy
    by_cases hv : v = ""
    · simpa [hv] using h
    · simpa [hv] using nodup_add acc v h

theorem collect_foldl (codelabs : List Codelab) (a b c : JsSet) :
    codelabs.foldl
      (fun acc lab =>
        (lab.categories.foldl addTruthy acc.1,
         lab.tags.foldl addTruthy acc.2.1,
         lab.authors.foldl addTruthy acc.2.2))
      (a, b, c)
    = ((codelabs.flatMap Codelab.categories).foldl addTruthy a,
       (codelabs.flatMap Codelab.tags).foldl addTruthy b,
       (codelabs.flatMap Codelab.authors).foldl addTruthy c) := by
  induction codelabs generalizing a b c with
  | nil => rfl
  | cons e es ih =>
    rw [List.foldl_cons, ih]
    simp only [List.flatMap_cons, List.foldl_append]

theorem collectFacets_eq (codelabs : List Codelab) :
    collectFacets codelabs
      = ((codelabs.flatMap Codelab.categories).foldl addTruthy [],
         (codelabs.flatMap Codelab.tags).foldl addTruthy [],
         (codelabs.flatMap Codelab.authors).foldl addTruthy []) :=
  collect_foldl codelabs [] [] []

theorem defaultCompare_consistent :
    ConsistentComparator (fun a b : String => lexCmp (codeUnits a) (codeUnits b)) :=
  lexCmp_consistent codeUnits

/-- The properties of one option list: the values of one facet field `field`
over the catalog, collected and sorted. -/
theorem options_spec (codelabs : List Codelab) (field : Codelab → List String) :
    (∀ v, v ∈ arraySort defaultCompare ((codelabs.flatMap field).foldl addTruthy []) ↔
      v ≠ "" ∧ ∃ e ∈ codelabs, v ∈ field e) ∧
    (arraySort defaultCompare ((codelabs.flatMap field).foldl addTruthy [])).Nodup ∧
    List.Sorted (fun a b => lexCmp (codeUnits a) (codeUnits b) ≤ 0)
      (arraySort defaultCompare ((codelabs.flatMap field).foldl addTruthy [])) := by
  have hp := arraySort_perm defaultCompare ((codelabs.flatMap field).foldl addTruthy [])
  refine ⟨?_, ?_, ?_⟩
  · intro v
    rw [hp.mem_iff, mem_foldl_addTruthy]
    simp [List.mem_flatMap]
  · exact hp.nodup_iff.mpr (nodup_foldl_addTruthy _ [] List.nodup_nil)
  · exact arraySort_sorted (fun a b : String => lexCmp (codeUnits a) (codeUnits b))
      defaultCompare_consistent _

/-- C10, as stated, fails: the categories `alpha` and `Bravo` are listed as
`Bravo`, `alpha` (the order of the code units, capitals first), and a locale
comparison puts `alpha` before `Bravo`. -/
theorem populateFilterOptions_not_locale_sorted :
    (populateFilterOptions (AppState.init sampleCatalogMixedCase)).categories
      = ["Bravo", "alpha"] ∧
    sampleBuiltins.localeCompare "alpha" "Bravo" < 0 ∧
    ¬ List.Sorted (fun a b => sampleBuiltins.localeCompare a b ≤ 0)
      (populateFilterOptions (AppState.init sampleCatalogMixedCase)).categories := by
  refine ⟨by decide, by decide, ?_⟩
  have h : (populateFilterOptions (AppState.init sampleCatalogMixedCase)).categories
      = ["Bravo", "alpha"] := by decide
  rw [h]
  intro hs
  have := List.rel_of_sorted_cons hs "alpha" (by simp)
  revert this
  decide

/-- C10, amended: for each facet group, the option list `populateFilterOptions`
passes on holds exactly the distinct non-empty values of that field over the
whole catalog, without duplicates, sorted ascending by UTF-16 code units (the
order of `sort()` without a comparator), and it is the same for any two
states with the same catalog. -/
theorem populateFilterOptions_spec (s : AppState) :
    ((∀ v, v ∈ (populateFilterOptions s).categories ↔
        v ≠ "" ∧ ∃ e ∈ s.codelabs, v ∈ e.categories) ∧
      (populateFilterOptions s).categories.Nodup ∧
      List.Sorted (fun a b => lexCmp (codeUnits a) (codeUnits b) ≤ 0)
        (populateFilterOptions s).categories) ∧
    ((∀ v, v ∈ (populateFilterOptions s).tags ↔
        v ≠ "" ∧ ∃ e ∈ s.codelabs, v ∈ e.tags) ∧
      (populateFilterOptions s).tags.Nodup ∧
      List.Sorted (fun a b => lexCmp (codeUnits a) (codeUnits b) ≤ 0)
        (populateFilterOptions s).tags) ∧
    ((∀ v, v ∈ (populateFilterOptions s).authors ↔
        v ≠ "" ∧ ∃ e ∈ s.codelabs, v ∈ e.authors) ∧
      (populateFilterOptions s).authors.Nodup ∧
      List.Sorted (fun a b => lexCmp (codeUnits a) (codeUnits b) ≤ 0)
        (populateFilterOptions s).authors) ∧
    (∀ s' : AppState, s'.codelabs = s.codelabs →
      populateFilterOptions s' = populateFilterOptions s) := by
  refine ⟨?_, ?_, ?_, ?_⟩
  · simpa only [populateFilterOptions, collectFacets_eq] using
      options_spec s.codelabs Codelab.categories
  · simpa only [populateFilterOptions, collectFacets_eq] using
      options_spec s.codelabs Codelab.tags
  · simpa only [populateFilterOptions, collectFacets_eq] using
      options_spec s.codelabs Codelab.authors
  · intro s' h
    simp only [populateFilterOptions, h]

/-! ## The empty-result fallback -/

theorem filterAndRender_state (B : Builtins) (s : AppState) :
    (filterAndRender B s).1 =
      { s with filteredCodelabs :=
          arraySort (sortComparator B s.currentSort) (s.codelabs.filter (filterCallback B s)) } :=
  rfl

theorem renderCodelabs_cards (s : AppState) (h : codelabsToShow s ≠ []) :
    renderCodelabs s = View.cards (codelabsToShow s).length
      (slice (codelabsToShow s) (((s.currentPage : Int) - 1) * 12)
        (((s.currentPage : Int) - 1) * 12 + 12))
      (ceilDiv (codelabsToShow s).length 12)
      (renderPagination s (ceilDiv (codelabsToShow s).length 12)) := by
  have hl : (codelabsToShow s).length ≠ 0 := by
    intro h0
    exact h (List.length_eq_zero.mp h0)
  unfold renderCodelabs
  simp only [hl, if_false]
  rfl

/-- C9: on a non-empty catalog, when the filters and the search match no
entry, `renderCodelabs` shows and paginates the full catalog and reports the
full catalog's length as the result count; when the filtered set is not empty
it shows the filtered set (the matching entries, sorted). -/
theorem filterAndRender_fallback (B : Builtins) (s : AppState) (hne : s.codelabs ≠ []) :
    ((∀ e ∈ s.codelabs, filterCallback B s e = false) →
      (filterAndRender B s).1.filteredCodelabs = [] ∧
      codelabsToShow (filterAndRender B s).1 = s.codelabs ∧
      ∃ pagination, (filterAndRender B s).2 =
        View.cards s.codelabs.length
          (slice s.codelabs (((s.currentPage : Int) - 1) * 12)
            (((s.currentPage : Int) - 1) * 12 + 12))
          (ceilDiv s.codelabs.length 12) pagination) ∧
    ((filterAndRender B s).1.filteredCodelabs ≠ [] →
      (filterAndRender B s).1.filteredCodelabs.Perm (s.codelabs.filter (filterCallback B s)) ∧
      codelabsToShow (filterAndRender B s).1 = (filterAndRender B s).1.filteredCodelabs ∧
      ∃ pagination, (filterAndRender B s).2 =
        View.cards (filterAndRender B s).1.filteredCodelabs.length
          (slice (filterAndRender B s).1.filteredCodelabs (((s.currentPage : Int) - 1) * 12)
            (((s.currentPage : Int) - 1) * 12 + 12))
          (ceilDiv (filterAndRender B s).1.filteredCodelabs.length 12) pagination) := by
  constructor
  · intro hz
    have hf : s.codelabs.filter (filterCallback B s) = [] := by
      rw [List.filter_eq_nil_iff]
      intro e he
      simp [hz e he]
    have hs : (filterAndRender B s).1 = { s with filteredCodelabs := [] } := by
      rw [filterAndRender_state, hf]
      rfl
    have hshow : codelabsToShow (filterAndRender B s).1 = s.codelabs := by
      rw [hs]
      rfl
    refine ⟨by rw [hs], hshow, ?_⟩
    have hr : (filterAndRender B s).2 = renderCodelabs (filterAndRender B s).1 := rfl
    rw [hr, renderCodelabs_cards _ (by rw [hshow]; exact hne), hshow]
    exact ⟨_, rfl⟩
  · intro hfne
    have hshow : codelabsToShow (filterAndRender B s).1
        = (filterAndRender B s).1.filteredCodelabs := by
      unfold codelabsToShow
      have : (filterAndRender B s).1.filteredCodelabs.length > 0 :=
        List.length_pos.mpr hfne
      simp [this]
    refine ⟨arraySort_perm _ _, hshow, ?_⟩
    have hr : (filterAndRender B s).2 = renderCodelabs (filterAndRender B s).1 := rfl
    rw [hr, renderCodelabs_cards _ (by rw [hshow]; exact hfne), hshow]
    exact ⟨_, rfl⟩

theorem filterAndRender_fallback_witness :
    sampleStateNoMatch.codelabs ≠ [] ∧
    (∀ e ∈ sampleStateNoMatch.codelabs, filterCallback sampleBuiltins sampleStateNoMatch e = false) ∧
    codelabsToShow (filterAndRender sampleBuiltins sampleStateNoMatch).1 = sampleCatalog13 ∧
    ∃ pagination, (filterAndRender sampleBuiltins sampleStateNoMatch).2 =
      View.cards 13 (List.replicate 12 (sampleLab "alpha" ["web"] [] [] none)) 2 pagination := by
  have hz : ∀ e ∈ sampleStateNoMatch.codelabs,
      filterCallback sampleBuiltins sampleStateNoMatch e = false := by decide
  obtain ⟨-, hshow, pagination, hv⟩ :=
    (filterAndRender_fallback sampleBuiltins sampleStateNoMatch (by decide)).1 hz
  exact ⟨by decide, hz, hshow, pagination, by rw [hv]; rfl⟩

/-! ## Sorting by date -/

/-- C6 fails on an unparsable date: sorting `[2024-01-01, garbage]` by
`updated-asc` leaves the entry dated 2024 first, because the comparator
returns `NaN` for the pair and `sort` reads `NaN` as "equal"; with the
unparsable date counted as the epoch, the undated entry would come first. -/
theorem sortCodelabs_unparsable_date_not_epoch :
    (sortCodelabs sampleBuiltins sampleStateBadDate).filteredCodelabs
      = [sampleLab "dated" [] [] [] (some "2024-01-01"),
         sampleLab "undated" [] [] [] (some "garbage")] ∧
    sortComparator sampleBuiltins "updated-asc"
      (sampleLab "dated" [] [] [] (some "2024-01-01"))
      (sampleLab "undated" [] [] [] (some "garbage")) = none ∧
    timeValue sampleBuiltins (some "garbage") = none ∧
    timeValue sampleBuiltins (some "2024-01-01") = some 1704067200000 := by
  refine ⟨by decide, by decide, by decide, by decide⟩

/-! ## Title order, ascending and descending -/

theorem sortComparator_title_asc (B : Builtins) :
    sortComparator B "title-asc" = fun a b => some (B.localeCompare a.title b.title) := by
  funext a b
  simp [sortComparator]

theorem sortComparator_title_desc (B : Builtins) :
    sortComparator B "title-desc" = fun a b => some (B.localeCompare b.title a.title) := by
  funext a b
  have h : ¬ ("title-desc" = "title-asc") := by decide
  simp [sortComparator, h]

theorem ConsistentComparator.flip {α : Type} {cmp : α → α → Int}
    (h : ConsistentComparator cmp) : ConsistentComparator (fun a b => cmp b a) where
  swap := by
    intro a b
    have h1 := h.swap a b
    have h2 := h.swap b a
    constructor <;> intro h' <;> simp only [] at h' ⊢ <;> omega
  trans := fun a b c hab hbc => h.trans c b a hbc hab

theorem ConsistentComparator.ne_zero_symm {α : Type} {cmp : α → α → Int}
    (h : ConsistentComparator cmp) {a b : α} (hab : cmp a b ≠ 0) : cmp b a ≠ 0 := by
  have h1 := h.swap a b
  have h2 := h.swap b a
  omega

theorem sorted_strict_of_ne_zero {α : Type} (cmp : α → α → Int) (l : List α)
    (hs : List.Sorted (fun a b => cmp a b ≤ 0) l)
    (hn : l.Pairwise (fun a b => cmp a b ≠ 0)) :
    List.Sorted (fun a b => cmp a b < 0) l := by
  have h := List.Pairwise.and hs hn
  exact h.imp (fun hab => by omega)

/-- Two arrangements of one list, each sorted by a consistent comparator
that never returns 0 on two of its entries, are the same arrangement. -/
theorem sorted_perm_unique {α : Type} (cmp : α → α → Int) (hc : ConsistentComparator cmp)
    (xs l1 l2 : List α) (hn : xs.Pairwise (fun a b => cmp a b ≠ 0))
    (p1 : l1.Perm xs) (p2 : l2.Perm xs)
    (s1 : List.Sorted (fun a b => cmp a b ≤ 0) l1)
    (s2 : List.Sorted (fun a b => cmp a b ≤ 0) l2) : l1 = l2 := by
  have sym : ∀ {x y : α}, cmp x y ≠ 0 → cmp y x ≠ 0 := fun h => hc.ne_zero_symm h
  have n1 : l1.Pairwise (fun a b => cmp a b ≠ 0) := (p1.pairwise_iff sym).mpr hn
  have n2 : l2.Pairwise (fun a b => cmp a b ≠ 0) := (p2.pairwise_iff sym).mpr hn
  have t1 := sorted_strict_of_ne_zero cmp l1 s1 n1
  have t2 := sorted_strict_of_ne_zero cmp l2 s2 n2
  haveI : IsAntisymm α (fun a b => cmp a b < 0) :=
    ⟨fun a b hab hba => by
      have := (hc.swap b a).mpr hab
      omega⟩
  exact List.eq_of_perm_of_sorted (p1.trans p2.symm) t1 t2

/-- C11, as stated, fails: two entries whose titles are different strings but
canonically equivalent compare as equal, so both `title-asc` and `title-desc`
leave them in place, and the reversed ascending order is not the descending
order. -/
theorem sortCodelabs_equivalent_titles_not_reversed :
    titleComposed ≠ titleDecomposed ∧
    sampleBuiltinsCanonical.localeCompare titleComposed titleDecomposed = 0 ∧
    (sortCodelabs sampleBuiltinsCanonical
        { sampleStateEquivalentTitles with currentSort := "title-asc" }).filteredCodelabs.reverse
      ≠ (sortCodelabs sampleBuiltinsCanonical
        { sampleStateEquivalentTitles with currentSort := "title-desc" }).filteredCodelabs := by
  refine ⟨by decide, by decide, by decide⟩

/-- C11, amended: for a consistent locale comparison and a list of entries
whose titles pairwise compare as different (the comparison of any two is not
0), sorting by `title-asc` and reversing gives the list sorted by
`title-desc`. -/
theorem sortCodelabs_title_desc_eq_reverse (B : Builtins)
    (hB : ConsistentComparator B.localeCompare) (s : AppState)
    (hd : s.filteredCodelabs.Pairwise (fun a b => B.localeCompare a.title b.title ≠ 0)) :
    (sortCodelabs B { s with currentSort := "title-asc" }).filteredCodelabs.reverse
      = (sortCodelabs B { s with currentSort := "title-desc" }).filteredCodelabs := by
  simp only [sortCodelabs, sortComparator_title_asc, sortComparator_title_desc]
  have hasc : ConsistentComparator (fun a b : Codelab => B.localeCompare a.title b.title) :=
    consistent_on_key hB Codelab.title
  have hdesc : ConsistentComparator (fun a b : Codelab => B.localeCompare b.title a.title) :=
    hasc.flip
  have hd' : s.filteredCodelabs.Pairwise (fun a b => B.localeCompare b.title a.title ≠ 0) :=
    hd.imp (fun h => hB.ne_zero_symm h)
  apply sorted_perm_unique (fun a b : Codelab => B.localeCompare b.title a.title) hdesc
    s.filteredCodelabs _ _ hd'
  · exact (List.reverse_perm _).trans (arraySort_perm _ _)
  · exact arraySort_perm _ _
  · have h := arraySort_sorted (fun a b : Codelab => B.localeCompare a.title b.title) hasc
      s.filteredCodelabs
    exact List.pairwise_reverse.mpr h
  · exact arraySort_sorted (fun a b : Codelab => B.localeCompare b.title a.title) hdesc
      s.filteredCodelabs

theorem sortCodelabs_title_desc_eq_reverse_witness :
    ConsistentComparator sampleBuiltins.localeCompare ∧
    sampleStateThreeTitles.filteredCodelabs.Pairwise
      (fun a b => sampleBuiltins.localeCompare a.title b.title ≠ 0) ∧
    ((sortCodelabs sampleBuiltins
        { sampleStateThreeTitles with currentSort := "title-asc" }).filteredCodelabs.map
        Codelab.title = ["alpha", "Bravo", "Charlie"]) ∧
    (sortCodelabs sampleBuiltins
        { sampleStateThreeTitles with currentSort := "title-asc" }).filteredCodelabs.reverse
      = (sortCodelabs sampleBuiltins
        { sampleStateThreeTitles with currentSort := "title-desc" }).filteredCodelabs :=
  ⟨sampleCompare_consistent, by decide, by decide,
    sortCodelabs_title_desc_eq_reverse sampleBuiltins sampleCompare_consistent
      sampleStateThreeTitles (by decide)⟩

/-! ## The page number stays in range -/

theorem filterCallback_congr (B : Builtins) (s s' : AppState)
    (hq : s'.searchQuery = s.searchQuery) (hf : s'.selectedFilters = s.selectedFilters) :
    filterCallback B s' = filterCallback B s := by
  funext e
  simp only [filterCallback, hq, hf]

theorem filterAndRender_filtered_length (B : Builtins) (s : AppState) :
    (filterAndRender B s).1.filteredCodelabs.length
      = (s.codelabs.filter (filterCallback B s)).length := by
  rw [filterAndRender_state]
  exact (arraySort_perm _ _).length_eq

theorem filterAndRender_fields (B : Builtins) (s : AppState) :
    (filterAndRender B s).1.codelabs = s.codelabs ∧
    (filterAndRender B s).1.currentPage = s.currentPage ∧
    (filterAndRender B s).1.searchQuery = s.searchQuery ∧
    (filterAndRender B s).1.selectedFilters = s.selectedFilters :=
  ⟨rfl, rfl, rfl, rfl⟩

/-- After `filterAndRender`, `filteredCodelabs` has as many entries as the
catalog has matches for the filters of the new state. -/
theorem filterAndRender_matches (B : Builtins) (s : AppState) :
    (filterAndRender B s).1.filteredCodelabs.length
      = ((filterAndRender B s).1.codelabs.filter
          (filterCallback B (filterAndRender B s).1)).length := by
  rw [filterAndRender_filtered_length]
  rw [filterCallback_congr B s (filterAndRender B s).1 rfl rfl]
  rfl

theorem totalPagesShown_congr (s s' : AppState) (hc : s'.codelabs = s.codelabs)
    (hl : s'.filteredCodelabs.length = s.filteredCodelabs.length) :
    totalPagesShown s' = totalPagesShown s := by
  unfold totalPagesShown codelabsToShow
  by_cases h : s.filteredCodelabs.length > 0
  · have h' : s'.filteredCodelabs.length > 0 := by omega
    simp only [h, h', if_true, hl]
  · have h' : ¬ s'.filteredCodelabs.length > 0 := by omega
    simp only [h, h', if_false, hc]

theorem renderPagination_page_range (s : AppState) (totalPages : Nat) (pg : Pagination)
    (h : renderPagination s totalPages = some pg) (n : Nat)
    (hn : PageToken.page n ∈ pg.pages) : 1 ≤ n ∧ n ≤ totalPages := by
  unfold renderPagination at h
  by_cases h1 : totalPages ≤ 1
  · simp [h1] at h
  · simp only [h1, if_false, Option.some.injEq] at h
    subst h
    simp only at hn
    by_cases h5 : totalPages ≤ 5
    · simp only [h5, if_true, List.mem_map, PageToken.page.injEq, exists_eq_right] at hn
      rw [List.mem_range'_1] at hn
      omega
    · by_cases h3 : s.currentPage ≤ 3
      · simp [h5, h3] at hn
        omega
      · by_cases ht : s.currentPage ≥ totalPages - 2
        · simp [h5, h3, ht] at hn
          omega
        · simp [h5, h3, ht] at hn
          omega

theorem pageButtons_range (s : AppState) (p : Nat) (hp : p ∈ pageButtons s) :
    1 ≤ p ∧ p ≤ totalPagesShown s := by
  unfold pageButtons at hp
  by_cases h0 : (codelabsToShow s).length = 0
  · simp [renderCodelabs, h0] at hp
  · simp only [renderCodelabs, h0, if_false] at hp
    cases hpg : renderPagination s (ceilDiv (codelabsToShow s).length itemsPerPage) with
    | none => simp [hpg] at hp
    | some pg =>
      simp only [hpg, List.mem_filterMap] at hp
      obtain ⟨t, ht, hte⟩ := hp
      cases t with
      | ellipsis => simp at hte
      | page n =>
        simp only [Option.some.injEq] at hte
        subst hte
        exact renderPagination_page_range s _ pg hpg n ht

theorem onPrevPage_fields (s : AppState) :
    (onPrevPage s).codelabs = s.codelabs ∧
    (onPrevPage s).filteredCodelabs = s.filteredCodelabs ∧
    (onPrevPage s).searchQuery = s.searchQuery ∧
    (onPrevPage s).selectedFilters = s.selectedFilters := by
  unfold onPrevPage
  split_ifs <;> exact ⟨rfl, rfl, rfl, rfl⟩

theorem onNextPage_fields (s : AppState) :
    (onNextPage s).codelabs = s.codelabs ∧
    (onNextPage s).filteredCodelabs = s.filteredCodelabs ∧
    (onNextPage s).searchQuery = s.searchQuery ∧
    (onNextPage s).selectedFilters = s.selectedFilters := by
  unfold onNextPage
  simp only []
  split_ifs <;> exact ⟨rfl, rfl, rfl, rfl⟩

theorem totalPagesShown_of_filtered (s : AppState) (h : s.filteredCodelabs.length > 0) :
    totalPagesShown s = ceilDiv s.filteredCodelabs.length itemsPerPage := by
  simp [totalPagesShown, codelabsToShow, h]

/-- The invariant of the reachable states: `filteredCodelabs` has as many
entries as the catalog has matches, and the page number is in range. -/
theorem reachable_invariant (B : Builtins) (s : AppState) (h : Reachable B s) :
    s.filteredCodelabs.length = (s.codelabs.filter (filterCallback B s)).length ∧
    1 ≤ s.currentPage ∧ s.currentPage ≤ max 1 (totalPagesShown s) := by
  induction h with
  | init s0 h1 =>
    refine ⟨filterAndRender_matches B s0, ?_, ?_⟩
    · show 1 ≤ s0.currentPage
      omega
    · show s0.currentPage ≤ _
      rw [h1]
      exact le_max_left _ _
  | act s a _ ha ih =>
    obtain ⟨im, i1, i2⟩ := ih
    have one : ∀ s1 : AppState, s1.currentPage = 1 →
        (filterAndRender B s1).1.filteredCodelabs.length
          = ((filterAndRender B s1).1.codelabs.filter
              (filterCallback B (filterAndRender B s1).1)).length ∧
        1 ≤ (filterAndRender B s1).1.currentPage ∧
        (filterAndRender B s1).1.currentPage
          ≤ max 1 (totalPagesShown (filterAndRender B s1).1) := by
      intro s1 h1
      refine ⟨filterAndRender_matches B s1, ?_, ?_⟩
      · show 1 ≤ s1.currentPage
        omega
      · show s1.currentPage ≤ _
        rw [h1]
        exact le_max_left _ _
    cases a with
    | searchInput value => exact one _ rfl
    | filterClear group => exact one _ rfl
    | resetFilters => exact one _ rfl
    | checkboxChange group value checked => exact one _ rfl
    | chipClose group value => exact one _ rfl
    | sortChange value =>
      have hl : (onSortChange B s value).filteredCodelabs.length
          = s.filteredCodelabs.length := by
        unfold onSortChange
        rw [filterAndRender_filtered_length, im]
        rw [filterCallback_congr B s { s with currentSort := value } rfl rfl]
      have ht : totalPagesShown (onSortChange B s value) = totalPagesShown s :=
        totalPagesShown_congr s _ rfl hl
      refine ⟨filterAndRender_matches B _, ?_, ?_⟩
      · exact i1
      · show s.currentPage ≤ max 1 (totalPagesShown (onSortChange B s value))
        rw [ht]
        exact i2
    | prevPage =>
      obtain ⟨hc, hf, hq, hs⟩ := onPrevPage_fields s
      have ht : totalPagesShown (onPrevPage s) = totalPagesShown s :=
        totalPagesShown_congr s _ hc (by rw [hf])
      refine ⟨?_, ?_, ?_⟩
      · show (onPrevPage s).filteredCodelabs.length
            = ((onPrevPage s).codelabs.filter (filterCallback B (onPrevPage s))).length
        rw [hf, hc, filterCallback_congr B s (onPrevPage s) hq hs]
        exact im
      · show 1 ≤ (onPrevPage s).currentPage
        unfold onPrevPage
        split_ifs with hgt
        · show 1 ≤ s.currentPage - 1
          omega
        · exact i1
      · show (onPrevPage s).currentPage ≤ max 1 (totalPagesShown (onPrevPage s))
        rw [ht]
        unfold onPrevPage
        split_ifs with hgt
        · show s.currentPage - 1 ≤ _
          omega
        · exact i2
    | nextPage =>
      obtain ⟨hc, hf, hq, hs⟩ := onNextPage_fields s
      have ht : totalPagesShown (onNextPage s) = totalPagesShown s :=
        totalPagesShown_congr s _ hc (by rw [hf])
      refine ⟨?_, ?_, ?_⟩
      · show (onNextPage s).filteredCodelabs.length
            = ((onNextPage s).codelabs.filter (filterCallback B (onNextPage s))).length
        rw [hf, hc, filterCallback_congr B s (onNextPage s) hq hs]
        exact im
      · show 1 ≤ (onNextPage s).currentPage
        unfold onNextPage
        simp only []
        split_ifs with hlt
        · show 1 ≤ s.currentPage + 1
          omega
        · exact i1
      · show (onNextPage s).currentPage ≤ max 1 (totalPagesShown (onNextPage s))
        rw [ht]
        unfold onNextPage
        simp only []
        split_ifs with hlt
        · show s.currentPage + 1 ≤ _
          have hpos : s.filteredCodelabs.length > 0 := by
            by_contra h0
            have : s.filteredCodelabs.length = 0 := by omega
            rw [this] at hlt
            simp [ceilDiv, itemsPerPage] at hlt
          rw [totalPagesShown_of_filtered s hpos]
          omega
        · exact i2
    | pageClick page =>
      have hmem : page ∈ pageButtons s := by
        simpa [Action.enabled] using ha
      obtain ⟨p1, p2⟩ := pageButtons_range s page hmem
      have ht : totalPagesShown (onPageClick s page) = totalPagesShown s :=
        totalPagesShown_congr s _ rfl rfl
      refine ⟨?_, p1, ?_⟩
      · show s.filteredCodelabs.length
            = (s.codelabs.filter (filterCallback B (onPageClick s page))).length
        rw [filterCallback_congr B s (onPageClick s page) rfl rfl]
        exact im
      · show page ≤ max 1 (totalPagesShown (onPageClick s page))
        rw [ht]
        omega

/-- C12: in every reachable state `1 <= currentPage <= max(1, totalPages)`,
`totalPages` being the page count of the displayed set; every action that
changes the search text or a facet selection leaves `currentPage = 1`; a
previous-page request on page 1 and a next-page request on the last page
leave `currentPage` unchanged. -/
theorem currentPage_in_range (B : Builtins) (s : AppState) (h : Reachable B s) :
    (1 ≤ s.currentPage ∧ s.currentPage ≤ max 1 (totalPagesShown s)) ∧
    (∀ a : Action, a.changesCriteria = true → (handleAction B s a).currentPage = 1) ∧
    (s.currentPage ≤ 1 → (handleAction B s Action.prevPage).currentPage = s.currentPage) ∧
    (max 1 (totalPagesShown s) ≤ s.currentPage →
      (handleAction B s Action.nextPage).currentPage = s.currentPage) := by
  obtain ⟨-, i1, i2⟩ := reachable_invariant B s h
  refine ⟨⟨i1, i2⟩, ?_, ?_, ?_⟩
  · intro a ha
    cases a with
    | searchInput value => rfl
    | filterClear group => rfl
    | resetFilters => rfl
    | checkboxChange group value checked => rfl
    | chipClose group value => rfl
    | sortChange value => simp [Action.changesCriteria] at ha
    | prevPage => simp [Action.changesCriteria] at ha
    | nextPage => simp [Action.changesCriteria] at ha
    | pageClick page => simp [Action.changesCriteria] at ha
  · intro hle
    show (onPrevPage s).currentPage = s.currentPage
    unfold onPrevPage
    have : ¬ s.currentPage > 1 := by omega
    simp [this]
  · intro hge
    show (onNextPage s).currentPage = s.currentPage
    unfold onNextPage
    simp only []
    split_ifs with hlt
    · exfalso
      have hpos : s.filteredCodelabs.length > 0 := by
        by_contra h0
        have : s.filteredCodelabs.length = 0 := by omega
        rw [this] at hlt
        simp [ceilDiv, itemsPerPage] at hlt
      rw [totalPagesShown_of_filtered s hpos] at hge
      omega
    · rfl

theorem currentPage_in_range_witness :
    Reachable sampleBuiltins
      (handleAction sampleBuiltins (filterAndRender sampleBuiltins (AppState.init sampleCatalog13)).1
        Action.nextPage) ∧
    (handleAction sampleBuiltins (filterAndRender sampleBuiltins (AppState.init sampleCatalog13)).1
        Action.nextPage).currentPage = 2 ∧
    totalPagesShown
      (handleAction sampleBuiltins (filterAndRender sampleBuiltins (AppState.init sampleCatalog13)).1
        Action.nextPage) = 2 ∧
    (1 ≤ (handleAction sampleBuiltins
        (filterAndRender sampleBuiltins (AppState.init sampleCatalog13)).1
        Action.nextPage).currentPage ∧
      (handleAction sampleBuiltins
        (filterAndRender sampleBuiltins (AppState.init sampleCatalog13)).1
        Action.nextPage).currentPage ≤ max 1 (totalPagesShown (handleAction sampleBuiltins
          (filterAndRender sampleBuiltins (AppState.init sampleCatalog13)).1
          Action.nextPage))) :=
  have hr : Reachable sampleBuiltins
      (handleAction sampleBuiltins (filterAndRender sampleBuiltins (AppState.init sampleCatalog13)).1
        Action.nextPage) :=
    Reachable.act _ Action.nextPage (Reachable.init (AppState.init sampleCatalog13) rfl) rfl
  ⟨hr, by decide, by decide, (currentPage_in_range sampleBuiltins _ hr).1⟩

/-! ## The next-page guard and the rendered page count -/

/-- C13 fails when the filters match nothing: for a catalog of 13 entries and
a selected category no entry has, `filterAndRender` leaves `filteredCodelabs`
empty and `renderCodelabs` shows the whole catalog on 2 pages, with the next
button enabled on page 1; the next-page listener computes 0 pages from
`filteredCodelabs` and leaves `currentPage` at 1. -/
theorem onNextPage_ignores_fallback :
    Reachable sampleBuiltins (filterAndRender sampleBuiltins sampleStateNoMatch).1 ∧
    (filterAndRender sampleBuiltins sampleStateNoMatch).1.filteredCodelabs = [] ∧
    (filterAndRender sampleBuiltins sampleStateNoMatch).1.currentPage = 1 ∧
    totalPagesShown (filterAndRender sampleBuiltins sampleStateNoMatch).1 = 2 ∧
    renderCodelabs (filterAndRender sampleBuiltins sampleStateNoMatch).1
      = View.cards 13 (List.replicate 12 (sampleLab "alpha" ["web"] [] [] none)) 2
          (some { prevDisabled := true, nextDisabled := false,
                  pages := [.page 1, .page 2] }) ∧
    (onNextPage (filterAndRender sampleBuiltins sampleStateNoMatch).1).currentPage = 1 := by
  refine ⟨Reachable.init sampleStateNoMatch rfl, by decide, by decide, by decide, by decide,
    by decide⟩

end Codelabs
